import Mathlib

/-!
Shallow embedding of the investment-notice repository: the calendar-aware
scheduler (`src/scheduler.rs`) and the numeric analyzer (`src/analyzer.rs`).

Calendar model: a chrono `DateTime<Utc>` is represented by the number of
civil days since 1970-01-01, the second of the day, and the nanosecond of
the second — the same information chrono stores, with field accessors
(`month`, `weekday`, `with_hour`, ...) computed through standard proleptic
Gregorian conversions.  Fallible chrono operations (`with_year`,
`with_month`, `with_day` return `None` on an invalid calendar combination)
become `Option`-valued functions, and an `.unwrap()` of `None` (a Rust
panic) surfaces as a `none` result of the embedded function.
-/

namespace InvestmentNotice

/-- Nanoseconds in one civil day. -/
def nanosPerDay : Int := 86400000000000

/-- A chrono `DateTime<Utc>`: civil days since 1970-01-01, second of the
day, nanosecond of the second. -/
structure DateTime where
  days : Int
  secs : Nat
  nano : Nat
deriving DecidableEq

/-- The instant as a total nanosecond count since the epoch; chrono's
ordering and subtraction of instants act on this value. -/
def toNanos (t : DateTime) : Int :=
  t.days * nanosPerDay + (t.secs : Int) * 1000000000 + (t.nano : Int)

/-- Well-formedness of the time-of-day fields. -/
def DateTime.Valid (t : DateTime) : Prop :=
  t.secs < 86400 ∧ t.nano < 1000000000

instance (t : DateTime) : Decidable t.Valid := by
  unfold DateTime.Valid; infer_instance

/-- The chrono expression `t + chrono::Duration::days(n)`. -/
def addDays (t : DateTime) (n : Int) : DateTime :=
  { t with days := t.days + n }

/-- chrono weekday, numbered from Monday = 0 (so Friday = 4, Saturday = 5,
Sunday = 6); 1970-01-01 was a Thursday (= 3). -/
def weekday (t : DateTime) : Int :=
  (t.days + 3) % 7

/-- The Rust function `scheduler::is_workday`: true unless Saturday or Sunday. -/
def is_workday (t : DateTime) : Bool :=
  !(weekday t == 5 || weekday t == 6)

/-- The Rust function `scheduler::is_friday`. -/
def is_friday (t : DateTime) : Bool :=
  weekday t == 4

/-- Proleptic Gregorian leap-year rule. -/
def isLeapYear (y : Int) : Bool :=
  Int.emod y 4 == 0 && (Int.emod y 100 != 0 || Int.emod y 400 == 0)

/-- Length of a month in the proleptic Gregorian calendar. -/
def daysInMonth (y : Int) (m : Nat) : Nat :=
  if m == 2 then (if isLeapYear y then 29 else 28)
  else if m == 4 || m == 6 || m == 9 || m == 11 then 30
  else 31

/-- Civil date `(year, month, day)` of a day number (Hinnant's
`civil_from_days`, the calendar chrono implements). -/
def civilFromDays (z : Int) : Int × Nat × Nat :=
  let zs := z + 719468
  let era := Int.ediv zs 146097
  let doe := (zs - era * 146097).toNat
  let yoe := (doe - doe / 1460 + doe / 36524 - doe / 146096) / 365
  let doy := doe - (365 * yoe + yoe / 4 - yoe / 100)
  let mp := (5 * doy + 2) / 153
  let d := doy - (153 * mp + 2) / 5 + 1
  let m := if mp < 10 then mp + 3 else mp - 9
  let y : Int := (yoe : Int) + era * 400
  (if m ≤ 2 then y + 1 else y, m, d)

/-- Day number of a civil date (Hinnant's `days_from_civil`). -/
def daysFromCivil (y : Int) (m d : Nat) : Int :=
  let y' := if m ≤ 2 then y - 1 else y
  let era := Int.ediv y' 400
  let yoe := (y' - era * 400).toNat
  let doy := (153 * (if 2 < m then m - 3 else m + 9) + 2) / 5 + d - 1
  let doe := yoe * 365 + yoe / 4 - yoe / 100 + doy
  era * 146097 + (doe : Int) - 719468

/-- chrono `Datelike::month` (1-based). -/
def month (t : DateTime) : Nat := (civilFromDays t.days).2.1

/-- chrono `Datelike::day` (1-based). -/
def day (t : DateTime) : Nat := (civilFromDays t.days).2.2

/-- chrono `Datelike::year`. -/
def year (t : DateTime) : Int := (civilFromDays t.days).1

/-- chrono `with_year`: `none` when (new year, month, day) is not a real
date (e.g. Feb 29 moved to a non-leap year). -/
def with_year (t : DateTime) (y : Int) : Option DateTime :=
  if day t ≤ daysInMonth y (month t) then
    some { t with days := daysFromCivil y (month t) (day t) }
  else none

/-- chrono `with_month`: `none` when the month is out of range or the kept
day does not exist in it (e.g. `with_month(2)` on the 31st). -/
def with_month (t : DateTime) (m : Nat) : Option DateTime :=
  if 1 ≤ m ∧ m ≤ 12 ∧ day t ≤ daysInMonth (year t) m then
    some { t with days := daysFromCivil (year t) m (day t) }
  else none

/-- chrono `with_day`. -/
def with_day (t : DateTime) (d : Nat) : Option DateTime :=
  if 1 ≤ d ∧ d ≤ daysInMonth (year t) (month t) then
    some { t with days := daysFromCivil (year t) (month t) d }
  else none

/-- chrono `with_hour`: keeps minute, second and (crucially) nanosecond. -/
def with_hour (t : DateTime) (h : Nat) : Option DateTime :=
  if h < 24 then some { t with secs := h * 3600 + t.secs % 3600 } else none

/-- chrono `with_minute`: keeps hour, second and nanosecond. -/
def with_minute (t : DateTime) (m : Nat) : Option DateTime :=
  if m < 60 then some { t with secs := t.secs / 3600 * 3600 + m * 60 + t.secs % 60 }
  else none

/-- chrono `with_second`: keeps hour, minute and nanosecond. -/
def with_second (t : DateTime) (s : Nat) : Option DateTime :=
  if s < 60 then some { t with secs := t.secs / 60 * 60 + s } else none

/-- chrono `Timelike::hour`. -/
def hour (t : DateTime) : Nat := t.secs / 3600

/-- chrono `Timelike::minute`. -/
def minute (t : DateTime) : Nat := t.secs % 3600 / 60

/-- chrono `Timelike::second`. -/
def second (t : DateTime) : Nat := t.secs % 60

/-- chrono `Duration::num_days`: whole days, truncated toward zero. -/
def durationNumDays (nanos : Int) : Int := Int.tdiv nanos nanosPerDay

/-- The Rust function `scheduler::is_last_workday_of_month`.  The Rust body
builds `next_month_first` starting from the ambient clock `Utc::now()` (not
from `date`); that ambient instant is the explicit `wall` argument here.
Each chrono `with_*` followed by `.unwrap()` is a monadic bind; a `none`
result models the Rust panic. -/
def is_last_workday_of_month (wall date : DateTime) : Option Bool :=
  let current_month := month date
  let next_month := if current_month == 12 then 1 else current_month + 1
  let next_year := if current_month == 12 then year date + 1 else year date
  (with_year wall next_year).bind fun a =>
  (with_month a next_month).bind fun b =>
  (with_day b 1).bind fun c =>
  (with_hour c 0).bind fun d =>
  (with_minute d 0).bind fun e =>
  (with_second e 0).bind fun next_month_first =>
  let days_until_next_month := durationNumDays (toNanos next_month_first - toNanos date)
  some (decide (1 ≤ days_until_next_month ∧ days_until_next_month ≤ 3) && is_workday date)

/-- Day-stepping `while cond { t += 1 day }` loop.  The Rust loop is
unbounded; `fuel` bounds the recursion here, and the theorems below show
the exit condition is reached long before `loopFuel` steps, so the bounded
and unbounded loops agree on every input the theorems cover. -/
def advance_while (cond : DateTime → Bool) : Nat → DateTime → DateTime
  | 0, t => t
  | fuel + 1, t => if cond t then advance_while cond fuel (addDays t 1) else t

/-- The monthly `while !is_last_workday_of_month(check_date)` loop; `none`
when an iteration's predicate call panics, or on fuel exhaustion (never
reached in the evaluations below). -/
def find_last_workday (wall : DateTime) : Nat → DateTime → Option DateTime
  | 0, _ => none
  | fuel + 1, t =>
    match is_last_workday_of_month wall t with
    | none => none
    | some true => some t
    | some false => find_last_workday wall fuel (addDays t 1)

/-- Fuel for the bounded renderings of the scheduler's day-stepping loops. -/
def loopFuel : Nat := 1000

/-- The `with_hour(20).unwrap().with_minute(0).unwrap().with_second(0).unwrap()`
chain shared by the three scheduler branches (target hour 20, minute 0). -/
def at2000 (t : DateTime) : Option DateTime :=
  (with_hour t 20).bind fun a => (with_minute a 0).bind fun b => with_second b 0

/-- The `"daily"` branch of `get_next_execution_time`, also the fallback
for unknown modes (the Rust code recurses with `"daily"`). -/
def daily_branch (current_time : DateTime) : Option DateTime :=
  (at2000 current_time).map fun next_time =>
    let next_time :=
      if toNanos next_time ≤ toNanos current_time then addDays next_time 1 else next_time
    advance_while (fun d => !is_workday d) loopFuel next_time

/-- The Rust function `scheduler::get_next_execution_time`.  `wall` is the
ambient `Utc::now()` read inside `is_last_workday_of_month`; only the
monthly branch consults it. -/
def get_next_execution_time (wall : DateTime) (mode : String)
    (current_time : DateTime) : Option DateTime :=
  match mode with
  | "daily" => daily_branch current_time
  | "weekly" =>
    (at2000 current_time).map fun next_time =>
      advance_while
        (fun d => !(weekday d == 4) || decide (toNanos d ≤ toNanos current_time))
        loopFuel next_time
  | "monthly" =>
    (at2000 current_time).bind fun next_time =>
    (find_last_workday wall loopFuel (addDays next_time 1)).bind fun check_date =>
    at2000 check_date
  | _ => daily_branch current_time

/-- Convenience constructor for concrete instants: civil date, time of day,
nanosecond. -/
def mkInstant (y : Int) (m d h mi s na : Nat) : DateTime :=
  ⟨daysFromCivil y m d, h * 3600 + mi * 60 + s, na⟩

/-!
Analyzer embedding (`src/analyzer.rs`).  An `f64` is idealized as an exact
rational plus the IEEE special values `inf`, `ninf`, `nan` (rounding is not
modelled; the claims below concern value structure — lengths, sentinels,
special values — not rounding error).  The special values are required for
faithfulness: the extrema folds seed with `f64::NEG_INFINITY` /
`f64::INFINITY`, and the analyzer's divisions are deliberately unguarded.
`usize`/`u64` arithmetic wraps modulo `2^64`, the release-profile Rust
semantics (with overflow checks the `i - period + 1` window arithmetic
would instead abort; see the period-zero theorem below).
-/

/-- An idealized IEEE-754 double: exact finite rationals plus specials. -/
inductive F where
  | fin (q : ℚ)
  | inf
  | ninf
  | nan
deriving DecidableEq

/-- IEEE `+` on idealized doubles. -/
def F.add : F → F → F
  | fin a, fin b => fin (a + b)
  | nan, _ => nan
  | _, nan => nan
  | inf, ninf => nan
  | ninf, inf => nan
  | inf, _ => inf
  | _, inf => inf
  | ninf, _ => ninf
  | _, ninf => ninf

/-- IEEE `-` on idealized doubles. -/
def F.sub : F → F → F
  | fin a, fin b => fin (a - b)
  | nan, _ => nan
  | _, nan => nan
  | inf, inf => nan
  | ninf, ninf => nan
  | inf, _ => inf
  | ninf, _ => ninf
  | _, inf => ninf
  | _, ninf => inf

/-- IEEE `*` on idealized doubles. -/
def F.mul : F → F → F
  | fin a, fin b => fin (a * b)
  | nan, _ => nan
  | _, nan => nan
  | inf, fin b => if b = 0 then nan else if 0 < b then inf else ninf
  | fin a, inf => if a = 0 then nan else if 0 < a then inf else ninf
  | ninf, fin b => if b = 0 then nan else if 0 < b then ninf else inf
  | fin a, ninf => if a = 0 then nan else if 0 < a then ninf else inf
  | inf, inf => inf
  | ninf, ninf => inf
  | inf, ninf => ninf
  | ninf, inf => ninf

/-- IEEE `/` on idealized doubles (a single unsigned zero: finite / 0
follows the numerator's sign, 0 / 0 is `nan`). -/
def F.div : F → F → F
  | fin a, fin b =>
    if b = 0 then (if a = 0 then nan else if 0 < a then inf else ninf) else fin (a / b)
  | nan, _ => nan
  | _, nan => nan
  | inf, fin b => if 0 ≤ b then inf else ninf
  | ninf, fin b => if 0 ≤ b then ninf else inf
  | fin _, inf => fin 0
  | fin _, ninf => fin 0
  | inf, _ => nan
  | ninf, _ => nan

/-- Rust `f64::abs`. -/
def F.abs : F → F
  | fin a => fin |a|
  | inf => inf
  | ninf => inf
  | nan => nan

/-- Rust `f64::max` (ignores a `nan` operand). -/
def F.max : F → F → F
  | nan, x => x
  | x, nan => x
  | fin a, fin b => fin (Max.max a b)
  | inf, _ => inf
  | _, inf => inf
  | ninf, x => x
  | x, ninf => x

/-- Rust `f64::min` (ignores a `nan` operand). -/
def F.min : F → F → F
  | nan, x => x
  | x, nan => x
  | fin a, fin b => fin (Min.min a b)
  | ninf, _ => ninf
  | _, ninf => ninf
  | inf, x => x
  | x, inf => x

/-- IEEE `<` (false on any `nan` operand). -/
def F.lt : F → F → Bool
  | nan, _ => false
  | _, nan => false
  | fin a, fin b => decide (a < b)
  | ninf, ninf => false
  | ninf, _ => true
  | _, ninf => false
  | inf, _ => false
  | _, inf => true

/-- IEEE `==` (false on any `nan` operand). -/
def F.beq : F → F → Bool
  | fin a, fin b => decide (a = b)
  | inf, inf => true
  | ninf, ninf => true
  | _, _ => false

instance : BEq F := ⟨F.beq⟩

/-- Finiteness test: false exactly on `inf`, `ninf`, `nan`. -/
def F.isFinite : F → Bool
  | fin _ => true
  | _ => false

/-- The `u64`/`usize` modulus (64-bit platform). -/
def u64Mod : Nat := 18446744073709551616

/-- Two's-complement `usize` subtraction `a - b` (release-profile wrapping). -/
def usize_sub (a b : Nat) : Nat := (a + (u64Mod - b % u64Mod)) % u64Mod

/-- The record `models::StockData` (the Rust field `open` is a reserved
word here, hence `open_`). -/
structure StockData where
  date : DateTime
  open_ : ℚ
  high : ℚ
  low : ℚ
  close : ℚ
  volume : Nat
deriving DecidableEq

/-- The record `models::DailyAnalysis`. -/
structure DailyAnalysis where
  date : DateTime
  current_price : F
  previous_price : F
  price_change_pct : F
  relative_to_high : F
  relative_to_low : F
  historical_high : F
  historical_low : F
  volume : Nat
deriving DecidableEq

/-- The record `models::WeeklyAnalysis`. -/
structure WeeklyAnalysis where
  start_date : DateTime
  end_date : DateTime
  start_price : F
  end_price : F
  weekly_change_pct : F
  highest_price : F
  highest_date : DateTime
  lowest_price : F
  lowest_date : DateTime
  average_volume : F
  total_volume : Nat
deriving DecidableEq

/-- The record `models::MonthlyAnalysis`. -/
structure MonthlyAnalysis where
  year : Int
  month : Nat
  start_date : DateTime
  end_date : DateTime
  start_price : F
  end_price : F
  monthly_change_pct : F
  highest_price : F
  highest_date : DateTime
  lowest_price : F
  lowest_date : DateTime
  average_volume : F
  total_volume : Nat
deriving DecidableEq

/-- The Rust function `analyzer::analyze_daily_data`.  The `is_empty`
guard plus `last().unwrap()` is rendered as a match on `getLast?`. -/
def analyze_daily_data (data : List StockData) : Except String DailyAnalysis :=
  match data.getLast? with
  | none => .error "No data available for analysis"
  | some latest =>
    let previous := if 1 < data.length then data.getD (data.length - 2) latest else latest
    let price_change_pct :=
      F.mul (F.div (F.sub (F.fin latest.close) (F.fin previous.close)) (F.fin previous.close))
        (F.fin 100)
    let historical_high := (data.map (fun d => F.fin d.high)).foldl F.max F.ninf
    let historical_low := (data.map (fun d => F.fin d.low)).foldl F.min F.inf
    let relative_to_high :=
      F.mul (F.div (F.sub (F.fin latest.close) historical_low)
        (F.sub historical_high historical_low)) (F.fin 100)
    let relative_to_low :=
      F.mul (F.div (F.sub historical_high (F.fin latest.close))
        (F.sub historical_high historical_low)) (F.fin 100)
    .ok
      { date := latest.date
        current_price := F.fin latest.close
        previous_price := F.fin previous.close
        price_change_pct := price_change_pct
        relative_to_high := relative_to_high
        relative_to_low := relative_to_low
        historical_high := historical_high
        historical_low := historical_low
        volume := latest.volume }

/-- State threaded through the weekly/monthly extrema scan. -/
structure ScanState where
  highest_price : F
  highest_date : DateTime
  lowest_price : F
  lowest_date : DateTime
  total_volume : Nat
deriving DecidableEq

/-- The `for stock_data in data` scan of `analyze_weekly_data` /
`analyze_monthly_data`: strict `>` / `<` comparisons (first occurrence
wins ties), `u64` volume accumulation. -/
def scan_extrema (data : List StockData) (start_date : DateTime) : ScanState :=
  data.foldl
    (fun st d =>
      let st :=
        if F.lt st.highest_price (F.fin d.high) then
          { st with highest_price := F.fin d.high, highest_date := d.date }
        else st
      let st :=
        if F.lt (F.fin d.low) st.lowest_price then
          { st with lowest_price := F.fin d.low, lowest_date := d.date }
        else st
      { st with total_volume := (st.total_volume + d.volume) % u64Mod })
    { highest_price := F.ninf, highest_date := start_date,
      lowest_price := F.inf, lowest_date := start_date, total_volume := 0 }

/-- The Rust function `analyzer::analyze_weekly_data`. -/
def analyze_weekly_data (data : List StockData) : Except String WeeklyAnalysis :=
  match data with
  | [] => .error "No data available for analysis"
  | start_data :: _ =>
    let end_data := data.getLast?.getD start_data
    let weekly_change_pct :=
      F.mul (F.div (F.sub (F.fin end_data.close) (F.fin start_data.close))
        (F.fin start_data.close)) (F.fin 100)
    let st := scan_extrema data start_data.date
    let average_volume := F.div (F.fin (st.total_volume : ℚ)) (F.fin (data.length : ℚ))
    .ok
      { start_date := start_data.date
        end_date := end_data.date
        start_price := F.fin start_data.close
        end_price := F.fin end_data.close
        weekly_change_pct := weekly_change_pct
        highest_price := st.highest_price
        highest_date := st.highest_date
        lowest_price := st.lowest_price
        lowest_date := st.lowest_date
        average_volume := average_volume
        total_volume := st.total_volume }

/-- The Rust function `analyzer::analyze_monthly_data`. -/
def analyze_monthly_data (data : List StockData) : Except String MonthlyAnalysis :=
  match data with
  | [] => .error "No data available for analysis"
  | start_data :: _ =>
    let end_data := data.getLast?.getD start_data
    let monthly_change_pct :=
      F.mul (F.div (F.sub (F.fin end_data.close) (F.fin start_data.close))
        (F.fin start_data.close)) (F.fin 100)
    let st := scan_extrema data start_data.date
    let average_volume := F.div (F.fin (st.total_volume : ℚ)) (F.fin (data.length : ℚ))
    .ok
      { year := year end_data.date
        month := month end_data.date
        start_date := start_data.date
        end_date := end_data.date
        start_price := F.fin start_data.close
        end_price := F.fin end_data.close
        monthly_change_pct := monthly_change_pct
        highest_price := st.highest_price
        highest_date := st.highest_date
        lowest_price := st.lowest_price
        lowest_date := st.lowest_date
        average_volume := average_volume
        total_volume := st.total_volume }

/-- The Rust function `analyzer::calculate_moving_average`.  The guard
`i < period - 1` and the slice start `i - period + 1` use wrapping
`usize` arithmetic; in every branch actually reached with `period ≥ 1`
the wrapped start equals `i + 1 - period` and the slice is in bounds. -/
def calculate_moving_average (data : List StockData) (period : Nat) : List F :=
  (List.range data.length).map fun i =>
    if i < usize_sub period 1 then F.fin 0
    else
      let start := (usize_sub i period + 1) % u64Mod
      let window := (data.drop start).take (i + 1 - start)
      F.div (window.foldl (fun acc d => F.add acc (F.fin d.close)) (F.fin 0))
        (F.fin (period : ℚ))

/-- The `for i in 1..data.len()` per-step changes of `calculate_rsi`:
element `j` is `close[j+1] - close[j]`. -/
def price_changes (data : List StockData) : List F :=
  List.zipWith (fun cur prev => F.sub (F.fin cur.close) (F.fin prev.close)) (data.drop 1) data

/-- The `gains` sequence of `calculate_rsi`. -/
def gains_of (changes : List F) : List F :=
  changes.map fun change => if F.lt (F.fin 0) change then change else F.fin 0

/-- The `losses` sequence of `calculate_rsi` (magnitude of non-positive
changes). -/
def losses_of (changes : List F) : List F :=
  changes.map fun change => if F.lt (F.fin 0) change then F.fin 0 else F.abs change

/-- The slice sum `l[start..stop].iter().sum::<f64>()`. -/
def slice_sum (l : List F) (start stop : Nat) : F :=
  ((l.drop start).take (stop - start)).foldl F.add (F.fin 0)

/-- One output entry of `calculate_rsi` at gains/losses index `i` (the
slice start `i - period + 1` uses wrapping `usize` arithmetic). -/
def rsi_entry (gains losses : List F) (period i : Nat) : F :=
  let start := (usize_sub i period + 1) % u64Mod
  let avg_gain := F.div (slice_sum gains start (i + 1)) (F.fin (period : ℚ))
  let avg_loss := F.div (slice_sum losses start (i + 1)) (F.fin (period : ℚ))
  if avg_loss == F.fin 0 then F.fin 100
  else
    let rs := F.div avg_gain avg_loss
    F.sub (F.fin 100) (F.div (F.fin 100) (F.add (F.fin 1) rs))

/-- The Rust function `analyzer::calculate_rsi`.  The final loop
`for i in period - 1..gains.len()` is a `Range` iteration: empty when the
(wrapped) start is at or past `gains.len()`. -/
def calculate_rsi (data : List StockData) (period : Nat) : List F :=
  if data.length < period + 1 then []
  else
    let changes := price_changes data
    let gains := gains_of changes
    let losses := losses_of changes
    let s := usize_sub period 1
    (List.range' s (gains.length - s)).map (rsi_entry gains losses period)

/-- Time of day in nanoseconds (for stating "time-of-day is exactly
20:00:00 UTC"). -/
def timeOfDayNanos (t : DateTime) : Int :=
  (t.secs : Int) * 1000000000 + (t.nano : Int)

/-!  General lemmas about the embedded operations. -/

theorem toNanos_def (t : DateTime) :
    toNanos t = t.days * 86400000000000 + (t.secs : Int) * 1000000000 + (t.nano : Int) := by
  simp [toNanos, nanosPerDay]

theorem addDays_zero (t : DateTime) : addDays t 0 = t := by
  simp [addDays]

theorem addDays_cast_succ (t : DateTime) (k : Nat) :
    addDays (addDays t 1) ((k : Int)) = addDays t ((k + 1 : Nat) : Int) := by
  simp only [addDays, DateTime.mk.injEq, and_true]
  push_cast
  omega

theorem is_workday_days_congr (a b : DateTime) (h : a.days = b.days) :
    is_workday a = is_workday b := by
  simp [is_workday, weekday, h]

/-- The shared hour/minute/second pinning chain always succeeds and yields
second-of-day 72000 (= 20:00:00) with the nanosecond carried over. -/
theorem at2000_eq (t : DateTime) : at2000 t = some ⟨t.days, 72000, t.nano⟩ := by
  simp only [at2000, with_hour, with_minute, with_second]
  norm_num
  omega

theorem advance_while_fields (cond : DateTime → Bool) :
    ∀ (fuel : Nat) (t : DateTime),
      (advance_while cond fuel t).secs = t.secs ∧
      (advance_while cond fuel t).nano = t.nano ∧
      t.days ≤ (advance_while cond fuel t).days := by
  intro fuel
  induction fuel with
  | zero => intro t; simp [advance_while]
  | succ n ih =>
    intro t
    simp only [advance_while]
    split
    · have h := ih (addDays t 1)
      simp only [addDays] at h ⊢
      refine ⟨h.1, h.2.1, ?_⟩
      omega
    · omega

/-- If the continuation condition fails somewhere within the fuel, the loop
stops at a point where it fails: the bounded loop reaches its exit
condition. -/
theorem advance_while_exit (cond : DateTime → Bool) :
    ∀ (fuel : Nat) (t : DateTime),
      (∃ k : Nat, k < fuel ∧ cond (addDays t k) = false) →
      cond (advance_while cond fuel t) = false := by
  intro fuel
  induction fuel with
  | zero =>
    intro t h
    obtain ⟨k, hk, _⟩ := h
    omega
  | succ n ih =>
    intro t h
    obtain ⟨k, hk, hck⟩ := h
    by_cases hc : cond t = true
    · simp only [advance_while, hc, if_true]
      apply ih
      have hk0 : k ≠ 0 := by
        intro h0
        rw [h0] at hck
        simp only [Nat.cast_zero, addDays_zero] at hck
        rw [hck] at hc
        exact Bool.false_ne_true hc
      refine ⟨k - 1, by omega, ?_⟩
      rw [addDays_cast_succ]
      have hs : k - 1 + 1 = k := by omega
      rw [hs]
      exact hck
    · simp only [advance_while]
      rw [if_neg hc]
      simpa using hc

/-- Every day strictly before the loop's stopping day still satisfied the
continuation condition: the loop stops at the first day where it fails. -/
theorem advance_while_min (cond : DateTime → Bool) :
    ∀ (fuel : Nat) (t : DateTime) (j : Nat),
      t.days + j < (advance_while cond fuel t).days →
      cond (addDays t j) = true := by
  intro fuel
  induction fuel with
  | zero => intro t j h; simp [advance_while] at h; omega
  | succ n ih =>
    intro t j h
    by_cases hc : cond t = true
    · simp only [advance_while, hc, if_true] at h
      match j with
      | 0 => simp only [Nat.cast_zero, addDays_zero]; exact hc
      | j' + 1 =>
        have h2 := ih (addDays t 1) j' (by simp only [addDays] at h ⊢; push_cast at h ⊢; omega)
        rw [addDays_cast_succ] at h2
        exact h2
    · simp only [advance_while] at h
      rw [if_neg hc] at h
      omega

theorem secs_of_tod (t : DateTime) (h1 : hour t = 20) (h2 : minute t = 0)
    (h3 : second t = 0) : t.secs = 72000 := by
  simp only [hour, minute, second] at h1 h2 h3
  omega

/-- Core facts about the daily workday-advancing loop started at second
72000 of day `cd`: its result is valid, strictly after `now`, a workday,
still at second 72000 with `now`'s nanosecond, and no earlier instant with
that time-of-day on a workday lies strictly after `now`. -/
theorem daily_core (now : DateTime) (cd : Int)
    (_hsec : now.secs < 86400) (hnano : now.nano < 1000000000)
    (hlow : toNanos now < cd * 86400000000000 + 72000 * 1000000000 + (now.nano : Int))
    (hmin : ∀ e : Int, e < cd →
      e * 86400000000000 + 72000 * 1000000000 + (now.nano : Int) ≤ toNanos now) :
    (advance_while (fun d => !is_workday d) loopFuel ⟨cd, 72000, now.nano⟩).Valid ∧
    toNanos now <
      toNanos (advance_while (fun d => !is_workday d) loopFuel ⟨cd, 72000, now.nano⟩) ∧
    is_workday (advance_while (fun d => !is_workday d) loopFuel ⟨cd, 72000, now.nano⟩) = true ∧
    (advance_while (fun d => !is_workday d) loopFuel ⟨cd, 72000, now.nano⟩).secs = 72000 ∧
    (advance_while (fun d => !is_workday d) loopFuel ⟨cd, 72000, now.nano⟩).nano = now.nano ∧
    (∀ t : DateTime, t.Valid → is_workday t = true → t.secs = 72000 → t.nano = now.nano →
      toNanos now < toNanos t →
      toNanos (advance_while (fun d => !is_workday d) loopFuel ⟨cd, 72000, now.nano⟩) ≤
        toNanos t) := by
  set c : DateTime := ⟨cd, 72000, now.nano⟩ with hc
  set r : DateTime := advance_while (fun d => !is_workday d) loopFuel c with hr
  have hf := advance_while_fields (fun d => !is_workday d) loopFuel c
  have hrs : r.secs = 72000 := by rw [hr]; exact hf.1
  have hrn : r.nano = now.nano := by rw [hr]; exact hf.2.1
  have hrd : cd ≤ r.days := by rw [hr]; exact hf.2.2
  have hex : ∃ k : Nat, k < loopFuel ∧ (fun d => !is_workday d) (addDays c k) = false := by
    refine ⟨if (cd + 3) % 7 = 5 then 2 else if (cd + 3) % 7 = 6 then 1 else 0, ?_, ?_⟩
    · split_ifs <;> norm_num [loopFuel]
    · split_ifs <;> simp [is_workday, weekday, addDays, hc] <;> omega
  have hwr : is_workday r = true := by
    have h := advance_while_exit (fun d => !is_workday d) loopFuel c hex
    rw [← hr] at h
    simpa using h
  refine ⟨⟨by omega, by omega⟩, ?_, hwr, hrs, hrn, ?_⟩
  · simp only [toNanos_def, hrs, hrn]
    rw [toNanos_def] at hlow
    omega
  · intro t htv hwt h72 hnn hlt
    by_contra hcon
    push_neg at hcon
    have htd : t.days < r.days := by
      simp only [toNanos_def, hrs, hrn] at hcon
      omega
    by_cases hcd : t.days < cd
    · have hm := hmin t.days hcd
      simp only [toNanos_def] at hlt hm
      omega
    · push_neg at hcd
      have hmn := advance_while_min (fun d => !is_workday d) loopFuel c (t.days - cd).toNat
        (by rw [← hr]; simp only [hc]; omega)
      have hmn' : is_workday (addDays c ((t.days - cd).toNat : Int)) = false := by
        simpa using hmn
      have hcg : is_workday (addDays c ((t.days - cd).toNat : Int)) = is_workday t := by
        apply is_workday_days_congr
        simp only [addDays, hc]
        omega
      rw [hcg, hwt] at hmn'
      simp at hmn'

theorem usize_sub_one (p : Nat) (h1 : 1 ≤ p) (h2 : p < u64Mod) :
    usize_sub p 1 = p - 1 := by
  simp only [usize_sub, u64Mod] at *
  omega

/-- In every reached mean/RSI branch the wrapped slice start
`i - period + 1` equals the intended `i + 1 - period`. -/
theorem wrap_start_eq (p i : Nat) (h1 : 1 ≤ p) (h2 : p < u64Mod) (hi : i < u64Mod)
    (hpi : p - 1 ≤ i) :
    (usize_sub i p + 1) % u64Mod = i + 1 - p := by
  simp only [usize_sub, u64Mod] at *
  omega

theorem F.add_fin (a b : ℚ) : F.add (F.fin a) (F.fin b) = F.fin (a + b) := rfl

theorem F.sub_fin (a b : ℚ) : F.sub (F.fin a) (F.fin b) = F.fin (a - b) := rfl

theorem F.mul_fin (a b : ℚ) : F.mul (F.fin a) (F.fin b) = F.fin (a * b) := rfl

theorem F.max_fin (a b : ℚ) : F.max (F.fin a) (F.fin b) = F.fin (Max.max a b) := rfl

theorem F.min_fin (a b : ℚ) : F.min (F.fin a) (F.fin b) = F.fin (Min.min a b) := rfl

theorem foldl_add_close (l : List StockData) (q : ℚ) :
    l.foldl (fun acc d => F.add acc (F.fin d.close)) (F.fin q)
      = F.fin (q + (l.map StockData.close).sum) := by
  induction l generalizing q with
  | nil => simp
  | cons a l ih =>
    simp only [List.foldl_cons, List.map_cons, List.sum_cons, F.add_fin, ih]
    congr 1
    ring

theorem price_changes_length (data : List StockData) :
    (price_changes data).length = data.length - 1 := by
  simp [price_changes]

theorem foldl_fmax_fin (data : List StockData) (q : ℚ) :
    (data.map (fun d => F.fin d.high)).foldl F.max (F.fin q)
      = F.fin (data.foldl (fun acc d => Max.max acc d.high) q) := by
  induction data generalizing q with
  | nil => simp
  | cons a l ih => simp [F.max_fin, ih]

theorem foldl_fmin_fin (data : List StockData) (q : ℚ) :
    (data.map (fun d => F.fin d.low)).foldl F.min (F.fin q)
      = F.fin (data.foldl (fun acc d => Min.min acc d.low) q) := by
  induction data generalizing q with
  | nil => simp
  | cons a l ih => simp [F.min_fin, ih]

/-- Over non-empty data the `NEG_INFINITY`-seeded maximum fold is finite. -/
theorem historical_high_fin (a : StockData) (l : List StockData) :
    ((a :: l).map (fun d => F.fin d.high)).foldl F.max F.ninf
      = F.fin (l.foldl (fun acc d => Max.max acc d.high) a.high) := by
  have h0 : F.max F.ninf (F.fin a.high) = F.fin a.high := rfl
  simp only [List.map_cons, List.foldl_cons, h0, foldl_fmax_fin]

/-- Over non-empty data the `INFINITY`-seeded minimum fold is finite. -/
theorem historical_low_fin (a : StockData) (l : List StockData) :
    ((a :: l).map (fun d => F.fin d.low)).foldl F.min F.inf
      = F.fin (l.foldl (fun acc d => Min.min acc d.low) a.low) := by
  have h0 : F.min F.inf (F.fin a.low) = F.fin a.low := rfl
  simp only [List.map_cons, List.foldl_cons, h0, foldl_fmin_fin]

/-!  Calibration checks against the spec's own scenarios (section 8). -/

/-- Scenario: Saturday 2024-06-01 10:00 UTC, mode daily, fires Monday
2024-06-03 20:00 UTC. -/
theorem scenario_daily_weekend :
    get_next_execution_time (mkInstant 2024 6 1 10 0 0 0) "daily"
      (mkInstant 2024 6 1 10 0 0 0) = some (mkInstant 2024 6 3 20 0 0 0) := by decide

/-- Scenario: Wednesday 2024-06-05 21:00 UTC (past 20:00), mode daily,
fires Thursday 2024-06-06 20:00 UTC. -/
theorem scenario_daily_evening :
    get_next_execution_time (mkInstant 2024 6 5 21 0 0 0) "daily"
      (mkInstant 2024 6 5 21 0 0 0) = some (mkInstant 2024 6 6 20 0 0 0) := by decide

/-- Calibration: a fully successful monthly computation (wall clock on a
safe day-of-month); June 2024 ends on a Sunday, and the heuristic fires on
Thursday June 27 (3 whole days before July 1 from the 20:00 candidate). -/
theorem scenario_monthly_june :
    get_next_execution_time (mkInstant 2024 6 5 10 0 0 0) "monthly"
      (mkInstant 2024 6 5 10 0 0 0) = some (mkInstant 2024 6 27 20 0 0 0) := by decide

/-!  Claim theorems. -/

/-- C1: the claim asserts `is_last_workday_of_month` is total — a boolean
for every valid instant, never failing.  The code builds `next_month_first`
from `Utc::now()` keeping the wall clock's day-of-month: with the wall
clock at the valid instant 2024-01-31 12:00 UTC and the argument
2024-01-15 00:00 UTC (next month = February), chrono's `with_month(2)`
returns `None` (no February 31) and the `.unwrap()` panics, modelled here
by the `none` result.  The claim is right about the intent (the function's
own doc comment describes a predicate of `date` alone) and the code is
wrong. -/
theorem is_last_workday_of_month_panics_on_jan31_wall :
    is_last_workday_of_month (mkInstant 2024 1 31 12 0 0 0)
      (mkInstant 2024 1 15 0 0 0 0) = none := by decide

/-- C2: the claim asserts `is_last_workday_of_month(d)` depends on nothing
besides `d`.  Refuted on the code: `next_month_first` inherits the
nanosecond field of `Utc::now()` (`with_second(0)` does not clear it), so
for the argument 2024-05-31 00:00:00.000000500 UTC the whole-day difference
to 2024-06-01 00:00:00 + (wall nanoseconds) is 0 when the wall clock's
nanosecond is below 500 and 1 once it reaches 500 — the same argument
yields `false` or `true` depending on the wall-clock instant of the call. -/
theorem is_last_workday_of_month_depends_on_wall_clock :
    is_last_workday_of_month (mkInstant 2024 5 15 0 0 0 0)
      (mkInstant 2024 5 31 0 0 0 500) = some false ∧
    is_last_workday_of_month (mkInstant 2024 5 15 0 0 0 600)
      (mkInstant 2024 5 31 0 0 0 500) = some true := by
  exact ⟨by decide, by decide⟩

/-- C3 (counterexample): the claim's "time-of-day exactly 20:00:00 UTC"
fails — chrono's `with_second(0)` keeps the nanosecond, so from
`now` = 2024-06-05 21:00:00.000000500 UTC the daily result is
2024-06-06 20:00:00.000000500 UTC, whose time of day is not exactly
20:00:00 (and 2024-06-06 20:00:00.000000000 would have been an earlier
workday instant after `now` with that exact time of day). -/
theorem daily_subsecond_carryover_cex :
    get_next_execution_time (mkInstant 2024 6 5 21 0 0 500) "daily"
      (mkInstant 2024 6 5 21 0 0 500) = some (mkInstant 2024 6 6 20 0 0 500) ∧
    timeOfDayNanos (mkInstant 2024 6 6 20 0 0 500) ≠ 72000000000000 := by
  exact ⟨by decide, by decide⟩

/-- C3 (amended): for every valid instant `now`, the daily mode returns an
instant strictly greater than `now`, falling on a workday, with hour 20,
minute 0, second 0 and the sub-second nanoseconds of `now` (so exactly
20:00:00 precisely when `now`'s nanosecond is zero); among workday instants
strictly after `now` with that same time-of-day profile it is the
earliest. -/
theorem get_next_execution_time_daily_spec (wall now : DateTime) (hv : now.Valid) :
    ∃ r, get_next_execution_time wall "daily" now = some r ∧
      r.Valid ∧
      toNanos now < toNanos r ∧
      is_workday r = true ∧
      hour r = 20 ∧ minute r = 0 ∧ second r = 0 ∧ r.nano = now.nano ∧
      (∀ t : DateTime, t.Valid → is_workday t = true →
        hour t = 20 → minute t = 0 → second t = 0 → t.nano = now.nano →
        toNanos now < toNanos t → toNanos r ≤ toNanos t) := by
  obtain ⟨hsec, hnano⟩ := hv
  have hgnet : get_next_execution_time wall "daily" now =
      some (advance_while (fun d => !is_workday d) loopFuel
        (if toNanos (⟨now.days, 72000, now.nano⟩ : DateTime) ≤ toNanos now
         then addDays ⟨now.days, 72000, now.nano⟩ 1
         else ⟨now.days, 72000, now.nano⟩)) := by
    simp [get_next_execution_time, daily_branch, at2000_eq]
  by_cases hle : toNanos (⟨now.days, 72000, now.nano⟩ : DateTime) ≤ toNanos now
  · rw [if_pos hle] at hgnet
    have haddd : addDays (⟨now.days, 72000, now.nano⟩ : DateTime) 1
        = (⟨now.days + 1, 72000, now.nano⟩ : DateTime) := by
      simp [addDays]
    rw [haddd] at hgnet
    simp only [toNanos_def] at hle
    have hcore := daily_core now (now.days + 1) hsec hnano
      (by simp only [toNanos_def]; omega)
      (by intro e he; simp only [toNanos_def]; omega)
    obtain ⟨hvr, hltr, hwr, hrs, hrn, hminim⟩ := hcore
    refine ⟨_, hgnet, hvr, hltr, hwr, ?_, ?_, ?_, hrn, ?_⟩
    · simp [hour, hrs]
    · simp [minute, hrs]
    · simp [second, hrs]
    · intro t htv hwt h1 h2 h3 hnn hlt
      exact hminim t htv hwt (secs_of_tod t h1 h2 h3) hnn hlt
  · rw [if_neg hle] at hgnet
    push_neg at hle
    simp only [toNanos_def] at hle
    have hcore := daily_core now now.days hsec hnano
      (by simp only [toNanos_def]; omega)
      (by intro e he; simp only [toNanos_def]; omega)
    obtain ⟨hvr, hltr, hwr, hrs, hrn, hminim⟩ := hcore
    refine ⟨_, hgnet, hvr, hltr, hwr, ?_, ?_, ?_, hrn, ?_⟩
    · simp [hour, hrs]
    · simp [minute, hrs]
    · simp [second, hrs]
    · intro t htv hwt h1 h2 h3 hnn hlt
      exact hminim t htv hwt (secs_of_tod t h1 h2 h3) hnn hlt

/-- C3 (witness): the amended daily theorem applied at the concrete valid
instant Saturday 2024-06-01 10:00 UTC. -/
theorem get_next_execution_time_daily_spec_witness :
    (mkInstant 2024 6 1 10 0 0 0).Valid ∧
    (∃ r, get_next_execution_time (mkInstant 2024 6 1 10 0 0 0) "daily"
        (mkInstant 2024 6 1 10 0 0 0) = some r ∧
      r.Valid ∧
      toNanos (mkInstant 2024 6 1 10 0 0 0) < toNanos r ∧
      is_workday r = true ∧
      hour r = 20 ∧ minute r = 0 ∧ second r = 0 ∧
      r.nano = (mkInstant 2024 6 1 10 0 0 0).nano ∧
      (∀ t : DateTime, t.Valid → is_workday t = true →
        hour t = 20 → minute t = 0 → second t = 0 →
        t.nano = (mkInstant 2024 6 1 10 0 0 0).nano →
        toNanos (mkInstant 2024 6 1 10 0 0 0) < toNanos t →
        toNanos r ≤ toNanos t)) :=
  ⟨by decide, get_next_execution_time_daily_spec _ _ (by decide)⟩

/-- C4 (counterexample): the claim's "time-of-day exactly 20:00:00 UTC"
fails for the weekly mode for the same nanosecond-carryover reason: from
Friday 2024-06-07 10:00:00.000000500 UTC the result is Friday
2024-06-07 20:00:00.000000500 UTC. -/
theorem weekly_subsecond_carryover_cex :
    get_next_execution_time (mkInstant 2024 6 7 10 0 0 500) "weekly"
      (mkInstant 2024 6 7 10 0 0 500) = some (mkInstant 2024 6 7 20 0 0 500) ∧
    timeOfDayNanos (mkInstant 2024 6 7 20 0 0 500) ≠ 72000000000000 := by
  exact ⟨by decide, by decide⟩

/-- C4 (amended): for every valid instant `now`, the weekly mode returns an
instant that falls on a Friday, is strictly greater than `now`, and has
hour 20, minute 0, second 0 with the sub-second nanoseconds of `now`
(exactly 20:00:00 precisely when `now`'s nanosecond is zero). -/
theorem get_next_execution_time_weekly_spec (wall now : DateTime) (hv : now.Valid) :
    ∃ r, get_next_execution_time wall "weekly" now = some r ∧
      r.Valid ∧
      toNanos now < toNanos r ∧
      is_friday r = true ∧
      hour r = 20 ∧ minute r = 0 ∧ second r = 0 ∧ r.nano = now.nano := by
  obtain ⟨hsec, hnano⟩ := hv
  set cond : DateTime → Bool :=
    fun d => !(weekday d == 4) || decide (toNanos d ≤ toNanos now) with hcond
  have hgnet : get_next_execution_time wall "weekly" now =
      some (advance_while cond loopFuel (⟨now.days, 72000, now.nano⟩ : DateTime)) := by
    simp [get_next_execution_time, at2000_eq, hcond]
  set r : DateTime := advance_while cond loopFuel (⟨now.days, 72000, now.nano⟩ : DateTime)
    with hr
  have hf := advance_while_fields cond loopFuel ⟨now.days, 72000, now.nano⟩
  rw [← hr] at hf
  obtain ⟨hrs, hrn, hrd⟩ := hf
  have hstep : ∀ k : Nat, 1 ≤ k → (now.days + (k : Int) + 3) % 7 = 4 →
      cond (addDays ⟨now.days, 72000, now.nano⟩ (k : Int)) = false := by
    intro k h1 hwk
    simp only [hcond, addDays, weekday, toNanos_def, Bool.or_eq_false_iff,
      Bool.not_eq_false', beq_iff_eq, decide_eq_false_iff_not, not_le]
    constructor
    · exact hwk
    · omega
  have hex : ∃ k : Nat, k < loopFuel ∧
      cond (addDays ⟨now.days, 72000, now.nano⟩ k) = false := by
    have h7 : (now.days + 3) % 7 = 0 ∨ (now.days + 3) % 7 = 1 ∨ (now.days + 3) % 7 = 2 ∨
        (now.days + 3) % 7 = 3 ∨ (now.days + 3) % 7 = 4 ∨ (now.days + 3) % 7 = 5 ∨
        (now.days + 3) % 7 = 6 := by omega
    rcases h7 with h | h | h | h | h | h | h
    · exact ⟨4, by norm_num [loopFuel], hstep 4 (by norm_num) (by omega)⟩
    · exact ⟨3, by norm_num [loopFuel], hstep 3 (by norm_num) (by omega)⟩
    · exact ⟨2, by norm_num [loopFuel], hstep 2 (by norm_num) (by omega)⟩
    · exact ⟨1, by norm_num [loopFuel], hstep 1 (by norm_num) (by omega)⟩
    · exact ⟨7, by norm_num [loopFuel], hstep 7 (by norm_num) (by omega)⟩
    · exact ⟨6, by norm_num [loopFuel], hstep 6 (by norm_num) (by omega)⟩
    · exact ⟨5, by norm_num [loopFuel], hstep 5 (by norm_num) (by omega)⟩
  have hrs' : r.secs = 72000 := by simpa using hrs
  have hrn' : r.nano = now.nano := by simpa using hrn
  have hcr := advance_while_exit cond loopFuel ⟨now.days, 72000, now.nano⟩ hex
  rw [← hr] at hcr
  simp only [hcond, Bool.or_eq_false_iff, Bool.not_eq_false', beq_iff_eq,
    decide_eq_false_iff_not, not_le] at hcr
  obtain ⟨hfri, hgt⟩ := hcr
  refine ⟨r, hgnet, ⟨by rw [hrs']; norm_num, by rw [hrn']; exact hnano⟩, hgt,
    ?_, ?_, ?_, ?_, hrn'⟩
  · simp [is_friday, hfri]
  · simp [hour, hrs']
  · simp [minute, hrs']
  · simp [second, hrs']

/-- C4 (witness): the amended weekly theorem applied at the concrete valid
instant Wednesday 2024-06-05 21:00 UTC. -/
theorem get_next_execution_time_weekly_spec_witness :
    (mkInstant 2024 6 5 21 0 0 0).Valid ∧
    (∃ r, get_next_execution_time (mkInstant 2024 6 5 21 0 0 0) "weekly"
        (mkInstant 2024 6 5 21 0 0 0) = some r ∧
      r.Valid ∧
      toNanos (mkInstant 2024 6 5 21 0 0 0) < toNanos r ∧
      is_friday r = true ∧
      hour r = 20 ∧ minute r = 0 ∧ second r = 0 ∧
      r.nano = (mkInstant 2024 6 5 21 0 0 0).nano) :=
  ⟨by decide, get_next_execution_time_weekly_spec _ _ (by decide)⟩

/-- C5: the claim asserts the monthly search terminates and returns an
instant satisfying the last-workday predicate at 20:00:00 UTC.  Refuted on
the code: each iteration calls `is_last_workday_of_month`, which builds
`next_month_first` from `Utc::now()`; scheduling monthly at
2024-12-31 10:00 UTC makes the first iteration check 2025-01-01 20:00 UTC,
whose next month is February while the wall clock's day-of-month is 31, so
`with_month(2)` returns `None` and the loop panics instead of returning. -/
theorem monthly_branch_panics_on_dec31_wall :
    get_next_execution_time (mkInstant 2024 12 31 10 0 0 0) "monthly"
      (mkInstant 2024 12 31 10 0 0 0) = none := by decide

/-- C6: for every input and period `p ≥ 1` (a `usize`, and the data a Rust
slice, hence the 2^64 bounds), the moving average has the input's length,
yields exactly 0.0 below index `p - 1`, and from index `p - 1` on yields
the arithmetic mean of closes `i - p + 1 ..= i`. -/
theorem calculate_moving_average_spec (data : List StockData) (period : Nat)
    (h1 : 1 ≤ period) (h2 : period < u64Mod) (h3 : data.length < u64Mod) :
    (calculate_moving_average data period).length = data.length ∧
    (∀ i : Nat, i < data.length → i + 1 < period →
      (calculate_moving_average data period)[i]? = some (F.fin 0)) ∧
    (∀ i : Nat, i < data.length → period ≤ i + 1 →
      (calculate_moving_average data period)[i]? =
        some (F.fin ((((data.map StockData.close).drop (i + 1 - period)).take period).sum
          / (period : ℚ)))) := by
  refine ⟨by simp [calculate_moving_average], ?_, ?_⟩
  · intro i hi hip
    simp only [calculate_moving_average, List.getElem?_map, List.getElem?_range, hi,
      if_pos, Option.map_some']
    rw [if_pos]
    rw [usize_sub_one period h1 h2]
    omega
  · intro i hi hip
    simp only [calculate_moving_average, List.getElem?_map, List.getElem?_range, hi,
      if_pos, Option.map_some']
    rw [if_neg (by rw [usize_sub_one period h1 h2]; omega)]
    rw [wrap_start_eq period i h1 h2 (by omega) (by omega)]
    have htake : i + 1 - (i + 1 - period) = period := by omega
    rw [htake]
    rw [foldl_add_close]
    have hpne : ((period : ℚ)) ≠ 0 := Nat.cast_ne_zero.mpr (by omega)
    simp only [F.div, if_neg hpne, zero_add, List.map_take, List.map_drop]

/-- Concrete two-point input for the moving-average witness. -/
def maWitnessData : List StockData :=
  [⟨mkInstant 2024 1 2 0 0 0 0, 1, 2, 1, 1, 10⟩,
   ⟨mkInstant 2024 1 3 0 0 0 0, 1, 4, 1, 3, 10⟩]

/-- C6 (witness): the moving-average theorem applied to a concrete
two-point input with period 2. -/
theorem calculate_moving_average_spec_witness :
    1 ≤ 2 ∧ (2 : Nat) < u64Mod ∧ maWitnessData.length < u64Mod ∧
    ((calculate_moving_average maWitnessData 2).length = maWitnessData.length ∧
    (∀ i : Nat, i < maWitnessData.length → i + 1 < 2 →
      (calculate_moving_average maWitnessData 2)[i]? = some (F.fin 0)) ∧
    (∀ i : Nat, i < maWitnessData.length → 2 ≤ i + 1 →
      (calculate_moving_average maWitnessData 2)[i]? =
        some (F.fin ((((maWitnessData.map StockData.close).drop (i + 1 - 2)).take 2).sum
          / ((2 : Nat) : ℚ))))) :=
  ⟨by norm_num, by norm_num [u64Mod], by norm_num [u64Mod, maWitnessData],
    calculate_moving_average_spec maWitnessData 2 (by norm_num) (by norm_num [u64Mod])
      (by norm_num [u64Mod, maWitnessData])⟩

/-- C7: RSI with fewer than `period + 1` points returns the empty
sequence; otherwise the output has length `input length - period`; and an
output entry is exactly 100.0 whenever the average loss over its trailing
window of `period` per-step changes is exactly 0 (output index `j` reads
the losses window `j ..= j + period - 1`). -/
theorem calculate_rsi_spec (data : List StockData) (period : Nat)
    (h1 : 1 ≤ period) (h2 : period < u64Mod) (h3 : data.length < u64Mod) :
    (data.length < period + 1 → calculate_rsi data period = []) ∧
    (period + 1 ≤ data.length → (calculate_rsi data period).length = data.length - period) ∧
    (∀ j : Nat, period + 1 ≤ data.length → j < data.length - period →
      F.div (slice_sum (losses_of (price_changes data)) j (j + period)) (F.fin (period : ℚ))
          = F.fin 0 →
      (calculate_rsi data period)[j]? = some (F.fin 100)) := by
  refine ⟨fun h => by simp [calculate_rsi, h], ?_, ?_⟩
  · intro h
    simp only [calculate_rsi, if_neg (by omega : ¬data.length < period + 1)]
    simp [List.length_range', gains_of, price_changes_length,
      usize_sub_one period h1 h2]
    omega
  · intro j hlen hj hzero
    simp only [calculate_rsi, if_neg (by omega : ¬data.length < period + 1)]
    have hglen : (gains_of (price_changes data)).length = data.length - 1 := by
      simp [gains_of, price_changes_length]
    rw [List.getElem?_map]
    have hcount : j < (gains_of (price_changes data)).length - usize_sub period 1 := by
      rw [hglen, usize_sub_one period h1 h2]
      omega
    rw [List.getElem?_range' _ _ hcount]
    simp only [Option.map_some', one_mul]
    rw [usize_sub_one period h1 h2]
    unfold rsi_entry
    rw [wrap_start_eq period (period - 1 + j) h1 h2 (by omega) (by omega)]
    have hstart : period - 1 + j + 1 - period = j := by omega
    have hstop : period - 1 + j + 1 = j + period := by omega
    rw [hstart, hstop]
    simp only [hzero]
    simp [BEq.beq, F.beq]

/-- Concrete three-point input for the RSI witness (one rise, one fall). -/
def rsiWitnessData : List StockData :=
  [⟨mkInstant 2024 1 2 0 0 0 0, 1, 2, 1, 1, 10⟩,
   ⟨mkInstant 2024 1 3 0 0 0 0, 1, 4, 1, 3, 10⟩,
   ⟨mkInstant 2024 1 4 0 0 0 0, 1, 4, 1, 2, 10⟩]

/-- C7 (witness): the RSI theorem applied to a concrete three-point input
with period 1. -/
theorem calculate_rsi_spec_witness :
    1 ≤ 1 ∧ (1 : Nat) < u64Mod ∧ rsiWitnessData.length < u64Mod ∧
    ((rsiWitnessData.length < 1 + 1 → calculate_rsi rsiWitnessData 1 = []) ∧
    (1 + 1 ≤ rsiWitnessData.length →
      (calculate_rsi rsiWitnessData 1).length = rsiWitnessData.length - 1) ∧
    (∀ j : Nat, 1 + 1 ≤ rsiWitnessData.length → j < rsiWitnessData.length - 1 →
      F.div (slice_sum (losses_of (price_changes rsiWitnessData)) j (j + 1)) (F.fin (1 : ℚ))
          = F.fin 0 →
      (calculate_rsi rsiWitnessData 1)[j]? = some (F.fin 100))) :=
  ⟨by norm_num, by norm_num [u64Mod], by norm_num [u64Mod, rsiWitnessData],
    calculate_rsi_spec rsiWitnessData 1 (by norm_num) (by norm_num [u64Mod])
      (by norm_num [u64Mod, rsiWitnessData])⟩

/-- C8: each analyzer fails (with the empty-input error) exactly on the
empty sequence; and the degenerate inputs resolve to non-finite values
rather than errors — a single all-equal point gives `nan` relative
positions (0/0), a zero start price gives an infinite weekly change, and a
single zero-close point gives a `nan` monthly change — as witnessed by the
three concrete evaluations conjoined here. -/
theorem analyzers_empty_input_policy :
    (∀ data : List StockData,
      ((analyze_daily_data data).isOk = true ↔ data ≠ []) ∧
      ((analyze_weekly_data data).isOk = true ↔ data ≠ []) ∧
      ((analyze_monthly_data data).isOk = true ↔ data ≠ [])) ∧
    (analyze_daily_data [⟨mkInstant 2024 1 2 0 0 0 0, 5, 5, 5, 5, 10⟩] =
      .ok { date := mkInstant 2024 1 2 0 0 0 0, current_price := F.fin 5,
            previous_price := F.fin 5, price_change_pct := F.fin 0,
            relative_to_high := F.nan, relative_to_low := F.nan,
            historical_high := F.fin 5, historical_low := F.fin 5, volume := 10 }) ∧
    (analyze_weekly_data
      [⟨mkInstant 2024 1 2 0 0 0 0, 0, 1, 0, 0, 10⟩,
       ⟨mkInstant 2024 1 3 0 0 0 0, 0, 2, 1, 3, 20⟩] =
      .ok { start_date := mkInstant 2024 1 2 0 0 0 0, end_date := mkInstant 2024 1 3 0 0 0 0,
            start_price := F.fin 0, end_price := F.fin 3,
            weekly_change_pct := F.inf,
            highest_price := F.fin 2, highest_date := mkInstant 2024 1 3 0 0 0 0,
            lowest_price := F.fin 0, lowest_date := mkInstant 2024 1 2 0 0 0 0,
            average_volume := F.fin 15, total_volume := 30 }) ∧
    (analyze_monthly_data [⟨mkInstant 2024 1 2 0 0 0 0, 0, 1, 0, 0, 10⟩] =
      .ok { year := 2024, month := 1,
            start_date := mkInstant 2024 1 2 0 0 0 0, end_date := mkInstant 2024 1 2 0 0 0 0,
            start_price := F.fin 0, end_price := F.fin 0,
            monthly_change_pct := F.nan,
            highest_price := F.fin 1, highest_date := mkInstant 2024 1 2 0 0 0 0,
            lowest_price := F.fin 0, lowest_date := mkInstant 2024 1 2 0 0 0 0,
            average_volume := F.fin 10, total_volume := 10 }) := by
  refine ⟨?_, ?_, ?_, ?_⟩
  · intro data
    refine ⟨?_, ?_, ?_⟩
    · cases data with
      | nil => simp [analyze_daily_data, Except.isOk, Except.toBool]
      | cons a l =>
        cases hlast : (a :: l).getLast? with
        | none => simp at hlast
        | some latest =>
          unfold analyze_daily_data
          rw [hlast]
          simp [Except.isOk, Except.toBool]
    · cases data with
      | nil => simp [analyze_weekly_data, Except.isOk, Except.toBool]
      | cons a l => simp [analyze_weekly_data, Except.isOk, Except.toBool]
    · cases data with
      | nil => simp [analyze_monthly_data, Except.isOk, Except.toBool]
      | cons a l => simp [analyze_monthly_data, Except.isOk, Except.toBool]
  · simp [analyze_daily_data, F.sub_fin, F.mul_fin, F.max, F.min, F.div, F.mul]
  · simp [analyze_weekly_data, scan_extrema, F.sub_fin, F.mul_fin, F.max, F.min, F.div,
      F.mul, F.lt, u64Mod]
    norm_num
  · have hy : year (mkInstant 2024 1 2 0 0 0 0) = 2024 := by decide
    have hm : month (mkInstant 2024 1 2 0 0 0 0) = 1 := by decide
    simp [analyze_monthly_data, scan_extrema, F.sub_fin, F.mul_fin, F.max, F.min, F.div,
      F.mul, F.lt, u64Mod, hy, hm]

/-- C9: whenever the daily analysis succeeds and its historical extrema
differ, the relative positions to the high and to the low sum to exactly
100 (the exact-arithmetic idealization of "within floating tolerance"). -/
theorem daily_relative_sum (data : List StockData) (a : DailyAnalysis)
    (hok : analyze_daily_data data = .ok a)
    (hne : a.historical_high ≠ a.historical_low) :
    F.add a.relative_to_high a.relative_to_low = F.fin 100 := by
  cases data with
  | nil => simp [analyze_daily_data] at hok
  | cons d0 rest =>
    cases hlast : (d0 :: rest).getLast? with
    | none => simp at hlast
    | some latest =>
      unfold analyze_daily_data at hok
      rw [hlast] at hok
      simp only [Except.ok.injEq] at hok
      subst hok
      simp only [historical_high_fin, historical_low_fin] at hne ⊢
      set qh : ℚ := rest.foldl (fun acc d => Max.max acc d.high) d0.high with hqh
      set ql : ℚ := rest.foldl (fun acc d => Min.min acc d.low) d0.low with hql
      have hne2 : qh - ql ≠ 0 := by
        intro h
        exact hne (by simp; linarith)
      simp only [F.sub_fin]
      simp only [F.div, if_neg hne2]
      simp only [F.mul_fin, F.add_fin]
      congr 1
      field_simp
      ring

/-- Concrete single-point input for the relative-position witness. -/
def dailyWitnessPoint : StockData :=
  ⟨mkInstant 2024 1 2 0 0 0 0, 3, 4, 2, 3, 7⟩

/-- The summary the daily analyzer computes for `dailyWitnessPoint` (fields
written exactly as the analyzer builds them, so the equation below holds
definitionally). -/
def dailyWitnessSummary : DailyAnalysis :=
  { date := mkInstant 2024 1 2 0 0 0 0
    current_price := F.fin 3
    previous_price := F.fin 3
    price_change_pct := F.mul (F.div (F.sub (F.fin 3) (F.fin 3)) (F.fin 3)) (F.fin 100)
    relative_to_high :=
      F.mul (F.div (F.sub (F.fin 3) (F.fin 2)) (F.sub (F.fin 4) (F.fin 2))) (F.fin 100)
    relative_to_low :=
      F.mul (F.div (F.sub (F.fin 4) (F.fin 3)) (F.sub (F.fin 4) (F.fin 2))) (F.fin 100)
    historical_high := F.fin 4
    historical_low := F.fin 2
    volume := 7 }

/-- C9 (witness): the relative-position theorem applied to a concrete
one-point input whose extrema differ. -/
theorem daily_relative_sum_witness :
    analyze_daily_data [dailyWitnessPoint] = .ok dailyWitnessSummary ∧
    dailyWitnessSummary.historical_high ≠ dailyWitnessSummary.historical_low ∧
    F.add dailyWitnessSummary.relative_to_high dailyWitnessSummary.relative_to_low
      = F.fin 100 :=
  ⟨rfl, by decide, daily_relative_sum [dailyWitnessPoint] dailyWitnessSummary rfl (by decide)⟩

/-- C10 (counterexample): the claim asserts a period of 0 on a non-empty
input makes the call fail with a panic.  Under the release-profile
(wrapping) semantics the code actually runs with, it does not fail: it
returns a sequence. -/
theorem calculate_moving_average_period_zero_cex :
    calculate_moving_average [⟨mkInstant 2024 1 2 0 0 0 0, 1, 2, 1, 1, 10⟩] 0
      = [F.fin 0] := by decide

/-- C10 (amended): for period = 0 the unsigned `period - 1` wraps to
`2^64 - 1`, so every index takes the insufficient-window branch and the
call returns an all-0.0 sequence of the input's length (never a window
mean); only an overflow-checked (debug) build would panic instead.  The
spec indeed states no precondition on the period. -/
theorem calculate_moving_average_period_zero (data : List StockData)
    (h3 : data.length < u64Mod) :
    calculate_moving_average data 0 = List.replicate data.length (F.fin 0) := by
  refine List.eq_replicate_iff.mpr ⟨by simp [calculate_moving_average], ?_⟩
  intro b hb
  simp only [calculate_moving_average, List.mem_map, List.mem_range] at hb
  obtain ⟨i, hi, hb⟩ := hb
  rw [← hb, if_pos]
  simp only [usize_sub, u64Mod] at *
  omega

/-- C10 (witness): the period-zero theorem applied to a concrete singleton
input. -/
theorem calculate_moving_average_period_zero_witness :
    ([⟨mkInstant 2024 1 3 0 0 0 0, 1, 4, 1, 3, 10⟩] : List StockData).length < u64Mod ∧
    calculate_moving_average [⟨mkInstant 2024 1 3 0 0 0 0, 1, 4, 1, 3, 10⟩] 0
      = List.replicate
          ([⟨mkInstant 2024 1 3 0 0 0 0, 1, 4, 1, 3, 10⟩] : List StockData).length
          (F.fin 0) :=
  ⟨by norm_num [u64Mod], calculate_moving_average_period_zero _ (by norm_num [u64Mod])⟩

end InvestmentNotice
